import Mathlib

/-!
Shallow embedding of the `simple_raster` software rasterizer
(`src/renderer/rasterizer/mod.rs`, `src/renderer/rasterizer/alpha_buffer.rs`,
`src/renderer/post_processor/mod.rs`, `src/renderer/texture2d.rs`) over exact
rational arithmetic, together with theorems checking the natural-language
specification against the code.

Conventions: `f32` values are modelled as `ℚ` (division is total with
junk value 0 at a zero denominator, mirroring structurally the code paths
that divide; where the distinction matters it is made explicit), `usize`
values as `ℕ` with explicit wrap-around where the code can underflow, and
`u32` pixel values as `ℕ`.
-/

namespace SimpleRaster

/-- Two-component vector of rationals (screen-space points, uv coordinates). -/
structure Vec2 where
  x : ℚ
  y : ℚ
deriving DecidableEq, Repr

/-- Three-component vector of rationals (RGB colours, barycentric weights). -/
structure Vec3 where
  x : ℚ
  y : ℚ
  z : ℚ
deriving DecidableEq, Repr

/-- Four-component vector of rationals (clip-space positions, RGBA colours). -/
structure Vec4 where
  x : ℚ
  y : ℚ
  z : ℚ
  w : ℚ
deriving DecidableEq, Repr

/-- nalgebra `Vector3::push`: append a fourth component. -/
def Vec3.push (v : Vec3) (a : ℚ) : Vec4 :=
  ⟨v.x, v.y, v.z, a⟩

/-- nalgebra `Vector4::xyz`: drop the fourth component. -/
def Vec4.xyz (v : Vec4) : Vec3 :=
  ⟨v.x, v.y, v.z⟩

/-- The value `f32::MAX` = (2^24 - 1) * 2^104, used by the code as the
background-depth sentinel. -/
def f32MAX : ℚ := 340282346638528859811704183484516925440

/-- `Fragment` from `alpha_buffer.rs`: straight RGBA colour plus scalar depth. -/
structure Fragment where
  colour : Vec4
  depth : ℚ
deriving DecidableEq, Repr

/-- `RenderBufferPixel` from `alpha_buffer.rs`: the per-pixel accumulator cell,
a linked list of translucent fragments plus one background fragment. -/
structure RenderBufferPixel where
  fragments : List Fragment
  background : Fragment
deriving DecidableEq, Repr

/-- `RenderBufferPixel::new`: empty translucent list; background slot holds the
configured background colour with alpha 1 at the `f32::MAX` depth sentinel. -/
def RenderBufferPixel.new (background_colour : Vec3) : RenderBufferPixel :=
  { fragments := []
    background := { colour := background_colour.push 1, depth := f32MAX } }

/-- `RenderBufferPixel::add`: a fragment with alpha at least 0.9999 replaces the
background slot; otherwise it is pushed at the back of the translucent list. -/
def RenderBufferPixel.add (cell : RenderBufferPixel) (fragment : Fragment) :
    RenderBufferPixel :=
  if 0.9999 ≤ fragment.colour.w then
    { cell with background := fragment }
  else
    { cell with fragments := cell.fragments ++ [fragment] }

/-- One step of the stable insertion used to model `fragments.sort_by` on depth:
the new fragment goes after every existing fragment of depth at most its own. -/
def insertByDepth : List Fragment → Fragment → List Fragment
  | [], f => [f]
  | g :: gs, f => if f.depth < g.depth then f :: g :: gs else g :: insertByDepth gs f

/-- Stable sort of the translucent list by ascending depth, modelling
`fragments.sort_by(|a, b| a.depth.partial_cmp(&b.depth).unwrap())`. -/
def sortByDepth (l : List Fragment) : List Fragment :=
  l.foldl insertByDepth []

/-- The standard over blend from `resolve`:
`result = fragment.colour.xyz() * alpha + result * (1 - alpha)`. -/
def overBlend (result : Vec3) (fragment : Fragment) : Vec3 :=
  let alpha := fragment.colour.w
  ⟨fragment.colour.x * alpha + result.x * (1 - alpha),
   fragment.colour.y * alpha + result.y * (1 - alpha),
   fragment.colour.z * alpha + result.z * (1 - alpha)⟩

/-- `RenderBufferPixel::resolve`: sort the translucent fragments by depth,
composite over the background colour every fragment whose depth is not
strictly greater than the background depth, then reset the cell to the
configured background colour at the depth sentinel. Returns the resolved
colour together with the cell as left behind by the call. -/
def RenderBufferPixel.resolve (cell : RenderBufferPixel)
    (background_colour : Vec3) : Vec3 × RenderBufferPixel :=
  let sorted := sortByDepth cell.fragments
  let background_depth := cell.background.depth
  let result_colour := sorted.foldl
    (fun result fragment =>
      if background_depth < fragment.depth then result else overBlend result fragment)
    cell.background.colour.xyz
  (result_colour,
   { fragments := []
     background := { colour := background_colour.push 1, depth := f32MAX } })

/-- `Rasterizer::draw_pixel`, with the fragment shader result passed as a
value (the shader is pure, so its output is a parameter of the embedding):
skip when the fragment depth is not nearer than the background depth, skip
when the shader discards, skip when alpha is at most 0.0001, otherwise add
the fragment to the cell. -/
def Rasterizer.draw_pixel (cell : RenderBufferPixel) (frag_depth : ℚ)
    (shader_result : Option Vec4) : RenderBufferPixel :=
  if cell.background.depth ≤ frag_depth then cell
  else
    match shader_result with
    | none => cell
    | some colour =>
      if colour.w ≤ 0.0001 then cell
      else cell.add { colour := colour, depth := frag_depth }

/-- `RasterOptions` from `rasterizer/mod.rs`. -/
structure RasterOptions where
  cull_backfaces : Bool
  background_colour : Vec3

/-- The per-vertex test inside `Rasterizer::triangle_outside_screen`: the
vertex has x outside [-w, w] and y outside [-w, w] and z outside [-w, w]. -/
def vertexOutsideAllAxes (v : Vec4) : Bool :=
  (v.x < -v.w || v.x > v.w) && (v.y < -v.w || v.y > v.w) && (v.z < -v.w || v.z > v.w)

/-- `Rasterizer::triangle_outside_screen`: returns true as soon as one of the
three clip-space vertices passes `vertexOutsideAllAxes`. -/
def Rasterizer.triangle_outside_screen (v0 v1 v2 : Vec4) : Bool :=
  vertexOutsideAllAxes v0 || vertexOutsideAllAxes v1 || vertexOutsideAllAxes v2

/-- `Rasterizer::is_backface`: cross product of the clip-space edge vectors
dotted with the fixed view direction (0, 0, 1), culled when at most 0. -/
def Rasterizer.is_backface (v0 v1 v2 : Vec4) : Bool :=
  let e1 : Vec4 := ⟨v1.x - v0.x, v1.y - v0.y, v1.z - v0.z, v1.w - v0.w⟩
  let e2 : Vec4 := ⟨v2.x - v0.x, v2.y - v0.y, v2.z - v0.z, v2.w - v0.w⟩
  let normal : Vec3 :=
    ⟨e1.y * e2.z - e1.z * e2.y, e1.z * e2.x - e1.x * e2.z, e1.x * e2.y - e1.y * e2.x⟩
  decide (normal.x * 0 + normal.y * 0 + normal.z * 1 ≤ 0)

/-- `Rasterizer::cull_triangle`: coarse screen reject, or backface cull when
enabled by the options. -/
def Rasterizer.cull_triangle (v0 v1 v2 : Vec4) (options : RasterOptions) : Bool :=
  Rasterizer.triangle_outside_screen v0 v1 v2
    || (options.cull_backfaces && Rasterizer.is_backface v0 v1 v2)

/-- Follows the spec's words (for comparison with the code's coarse reject):
all three clip-space vertices lie outside the same single clip-space
half-space, x, y or z each independently outside [-w, w] on the same side. -/
def allOutsideSameHalfSpace (v0 v1 v2 : Vec4) : Bool :=
  (v0.x < -v0.w && v1.x < -v1.w && v2.x < -v2.w) ||
  (v0.x > v0.w && v1.x > v1.w && v2.x > v2.w) ||
  (v0.y < -v0.w && v1.y < -v1.w && v2.y < -v2.w) ||
  (v0.y > v0.w && v1.y > v1.w && v2.y > v2.w) ||
  (v0.z < -v0.w && v1.z < -v1.w && v2.z < -v2.w) ||
  (v0.z > v0.w && v1.z > v1.w && v2.z > v2.w)

/-- The local `area` of `Rasterizer::calculate_barycentric_coordinates`: half
the cross product of the two screen-space edge vectors. This is the
denominator of the barycentric weights. -/
def barycentricArea (a b c : Vec2) : ℚ :=
  0.5 * ((b.x - a.x) * (c.y - a.y) - (c.x - a.x) * (b.y - a.y))

/-- `Rasterizer::calculate_barycentric_coordinates`: sub-triangle areas divided
by the full area (a division that the code performs unguarded; at a zero
area the rational model yields the junk value 0 where `f32` yields NaN),
with the third weight as one minus the other two. -/
def Rasterizer.calculate_barycentric_coordinates (vertex_positions : Vec2 × Vec2 × Vec2)
    (pixel : Vec2) : Vec3 :=
  let (a, b, c) := vertex_positions
  let area := barycentricArea a b c
  let alpha := 0.5 * ((b.x - pixel.x) * (c.y - pixel.y)
    - (c.x - pixel.x) * (b.y - pixel.y)) / area
  let beta := 0.5 * ((c.x - pixel.x) * (a.y - pixel.y)
    - (a.x - pixel.x) * (c.y - pixel.y)) / area
  let gamma := 1 - alpha - beta
  ⟨alpha, beta, gamma⟩

/-- The per-pixel coverage test of `Rasterizer::draw_triangle`: the pixel is
skipped exactly when some barycentric weight is negative, so it is treated
as covered when no weight compares below zero. -/
def pixelCovered (bary : Vec3) : Bool :=
  !(bary.x < 0 || bary.y < 0 || bary.z < 0)

/-- `Rasterizer::build_viewport_matrix` with margin (0, 0), applied to a
clip-space position: maps x and y into pixel space with inverted y and
leaves z and w untouched. -/
def viewportTransform (width height : ℚ) (v : Vec4) : Vec4 :=
  ⟨width / 2 * v.x + (0 + width / 2) * v.w,
   -(height / 2) * v.y + (0 + height / 2) * v.w,
   v.z,
   v.w⟩

/-- The perspective divide of `Rasterizer::draw_triangle`: screen-space 2D
point of a viewport-transformed position, x and y divided by w. -/
def perspectiveDivideXY (v : Vec4) : Vec2 :=
  ⟨v.x / v.w, v.y / v.w⟩

/-- The screen-space (non-perspective) barycentric weights `bary_coords`
computed by `Rasterizer::draw_triangle` at a pixel. -/
def screenWeightsAt (width height : ℚ) (v0 v1 v2 : Vec4) (pixel : Vec2) : Vec3 :=
  Rasterizer.calculate_barycentric_coordinates
    (perspectiveDivideXY (viewportTransform width height v0),
     perspectiveDivideXY (viewportTransform width height v1),
     perspectiveDivideXY (viewportTransform width height v2))
    pixel

/-- The perspective-corrected weights `bary_clip` of `Rasterizer::draw_triangle`:
each screen weight divided by its vertex's w, then renormalized to sum 1. -/
def clipWeightsAt (width height : ℚ) (v0 v1 v2 : Vec4) (pixel : Vec2) : Vec3 :=
  let bary := screenWeightsAt width height v0 v1 v2 pixel
  let s0 := viewportTransform width height v0
  let s1 := viewportTransform width height v1
  let s2 := viewportTransform width height v2
  let bc : Vec3 := ⟨bary.x / s0.w, bary.y / s1.w, bary.z / s2.w⟩
  let s := bc.x + bc.y + bc.z
  ⟨bc.x / s, bc.y / s, bc.z / s⟩

/-- `Rasterizer::get_frag_depth`: dot product of the given weights with the
three clip-space z components. -/
def Rasterizer.get_frag_depth (v0 v1 v2 : Vec4) (bary : Vec3) : ℚ :=
  bary.x * v0.z + bary.y * v1.z + bary.z * v2.z

/-- The fragment depth computed for a pixel by the body of
`Rasterizer::draw_triangle`, written out exactly as in the source: viewport
transform, perspective divide, screen barycentric weights, division by the
screen w components, renormalization, then `get_frag_depth` on the result. -/
def drawTriangleDepthAt (width height : ℚ) (v0 v1 v2 : Vec4) (pixel : Vec2) : ℚ :=
  let s0 := viewportTransform width height v0
  let s1 := viewportTransform width height v1
  let s2 := viewportTransform width height v2
  let screen2d := (perspectiveDivideXY s0, perspectiveDivideXY s1, perspectiveDivideXY s2)
  let bary_coords := Rasterizer.calculate_barycentric_coordinates screen2d pixel
  let bary_clip : Vec3 :=
    ⟨bary_coords.x / s0.w, bary_coords.y / s1.w, bary_coords.z / s2.w⟩
  let bary_clip : Vec3 :=
    ⟨bary_clip.x / (bary_clip.x + bary_clip.y + bary_clip.z),
     bary_clip.y / (bary_clip.x + bary_clip.y + bary_clip.z),
     bary_clip.z / (bary_clip.x + bary_clip.y + bary_clip.z)⟩
  Rasterizer.get_frag_depth v0 v1 v2 bary_clip

/-- `PostProcessor::luminance`: weighted sum of the 8-bit channels of a packed
`0xRRGGBB` pixel, normalized to [0, 1]. -/
def luminance (pixel : ℕ) : ℚ :=
  let r := (pixel >>> 16) &&& 0xff
  let g := (pixel >>> 8) &&& 0xff
  let b := pixel &&& 0xff
  (0.2126 * (r : ℚ) + 0.7152 * (g : ℚ) + 0.0722 * (b : ℚ)) / 255

/-- The `luma_diff_threshold` constant of `PostProcessor::run_fxaa_for_pixel`. -/
def luma_diff_threshold : ℚ := 0.1

/-- The 4-neighbour luminance delta `luma_diff` of
`PostProcessor::run_fxaa_for_pixel`: |left - right| + |top - bottom|. -/
def lumaDelta (buffer : ℕ → ℕ) (width x y : ℕ) : ℚ :=
  let index := y * width + x
  let left_luma := luminance (buffer (index - 1))
  let right_luma := luminance (buffer (index + 1))
  let top_luma := luminance (buffer (index - width))
  let bottom_luma := luminance (buffer (index + width))
  |left_luma - right_luma| + |top_luma - bottom_luma|

/-- The above-threshold branch of `PostProcessor::run_fxaa_for_pixel`: sum each
8-bit channel over the 3x3 neighbourhood centred at (x, y), divide each sum
by 9 with `u32` (truncating) division, and repack. -/
def average3x3 (buffer : ℕ → ℕ) (width x y : ℕ) : ℕ :=
  let px := fun ox oy => buffer ((y - 1 + oy) * width + (x - 1 + ox))
  let r_sum := ((px 0 0 >>> 16) &&& 0xff) + ((px 1 0 >>> 16) &&& 0xff)
    + ((px 2 0 >>> 16) &&& 0xff) + ((px 0 1 >>> 16) &&& 0xff)
    + ((px 1 1 >>> 16) &&& 0xff) + ((px 2 1 >>> 16) &&& 0xff)
    + ((px 0 2 >>> 16) &&& 0xff) + ((px 1 2 >>> 16) &&& 0xff)
    + ((px 2 2 >>> 16) &&& 0xff)
  let g_sum := ((px 0 0 >>> 8) &&& 0xff) + ((px 1 0 >>> 8) &&& 0xff)
    + ((px 2 0 >>> 8) &&& 0xff) + ((px 0 1 >>> 8) &&& 0xff)
    + ((px 1 1 >>> 8) &&& 0xff) + ((px 2 1 >>> 8) &&& 0xff)
    + ((px 0 2 >>> 8) &&& 0xff) + ((px 1 2 >>> 8) &&& 0xff)
    + ((px 2 2 >>> 8) &&& 0xff)
  let b_sum := (px 0 0 &&& 0xff) + (px 1 0 &&& 0xff) + (px 2 0 &&& 0xff)
    + (px 0 1 &&& 0xff) + (px 1 1 &&& 0xff) + (px 2 1 &&& 0xff)
    + (px 0 2 &&& 0xff) + (px 1 2 &&& 0xff) + (px 2 2 &&& 0xff)
  ((r_sum / 9) <<< 16) ||| ((g_sum / 9) <<< 8) ||| (b_sum / 9)

/-- `PostProcessor::run_fxaa_for_pixel`: replace the pixel by the 3x3 average
when the luminance delta exceeds the threshold, else copy it through. -/
def run_fxaa_for_pixel (buffer : ℕ → ℕ) (x y width : ℕ) : ℕ :=
  if luma_diff_threshold < lumaDelta buffer width x y then
    average3x3 buffer width x y
  else
    buffer (y * width + x)

/-- Pixelwise semantics of `PostProcessor::run_fxaa`: rows 0 and height - 1 and
columns 0 and width - 1 are copied from the input buffer unchanged; every
other pixel goes through `run_fxaa_for_pixel`. The row-parallel loop writes
a secondary buffer from the read-only input, so the output is this pure
function of the input buffer. -/
def run_fxaa (buffer : ℕ → ℕ) (width height x y : ℕ) : ℕ :=
  if y = 0 ∨ y = height - 1 ∨ x = 0 ∨ x = width - 1 then
    buffer (y * width + x)
  else
    run_fxaa_for_pixel buffer x y width

/-- `PostProcessor::process`: run the FXAA pass when the `fxaa` option is set,
otherwise leave the buffer untouched. -/
def PostProcessor.process (fxaa : Bool) (buffer : ℕ → ℕ) (width height x y : ℕ) : ℕ :=
  if fxaa then run_fxaa buffer width height x y else buffer (y * width + x)

/-- The size of the `usize` value space on the 64-bit target. -/
def usizeSize : ℕ := 2 ^ 64

/-- The Rust `as usize` cast of an `f32` value (modelled as ℚ): saturating,
truncating toward zero; at most 0 gives 0, huge gives `usize::MAX`. -/
def f32_as_usize (q : ℚ) : ℕ :=
  if q ≤ 0 then 0 else min (Int.toNat ⌊q⌋) (usizeSize - 1)

/-- `Texture2D` from `texture2d.rs`: RGBA8 texels in row-major order. Each
texel is a packed tuple of four 8-bit channel values. -/
structure Texture2D where
  pixels : List (ℕ × ℕ × ℕ × ℕ)
  width : ℕ
  height : ℕ

/-- The column index computed by `Texture2D::sample`:
`(u * (width - 1) as f32) as usize`, then `min(width - 1)`. -/
def sampleColIndex (width : ℕ) (u : ℚ) : ℕ :=
  min (f32_as_usize (u * ((width - 1 : ℕ) : ℚ))) (width - 1)

/-- The row expression of `Texture2D::sample` before clamping, evaluated over
ℤ: `height - (v * (height - 1) as f32) as usize - 1`. A negative value
means the `usize` subtraction underflows. -/
def rowIndexInt (height : ℕ) (v : ℚ) : ℤ :=
  (height : ℤ) - (f32_as_usize (v * ((height - 1 : ℕ) : ℚ)) : ℤ) - 1

/-- The row index computed by `Texture2D::sample` with release-mode wrapping
`usize` subtraction, then `min(height - 1)`. -/
def sampleRowIndex (height : ℕ) (v : ℚ) : ℕ :=
  min (Int.toNat (rowIndexInt height v % (usizeSize : ℤ))) (height - 1)

/-- The flat texel index `v * width + u` accessed by `Texture2D::sample`. -/
def sampleIndex (width height : ℕ) (u v : ℚ) : ℕ :=
  sampleRowIndex height v * width + sampleColIndex width u

/-- `Texture2D::sample`: fetch the texel at the clamped flipped coordinates and
scale each 8-bit channel to [0, 1]. -/
def Texture2D.sample (t : Texture2D) (u v : ℚ) : Vec4 :=
  let p := t.pixels.getD (sampleIndex t.width t.height u v) (0, 0, 0, 0)
  ⟨(p.1 : ℚ) / 255, (p.2.1 : ℚ) / 255, (p.2.2.1 : ℚ) / 255, (p.2.2.2 : ℚ) / 255⟩

/-- The invariant claimed by the spec for the accumulator cell: every
translucent fragment is strictly nearer than the background fragment. -/
def translucentInvariant (cell : RenderBufferPixel) : Prop :=
  ∀ f ∈ cell.fragments, f.depth < cell.background.depth

/-- A constant 3x3 buffer, used to exercise the below-threshold FXAA branch. -/
def fxaaFlatBuf : ℕ → ℕ := fun _ => 50

/-- A 3x3 buffer that is black except for a white pixel to the right of the
centre, used to exercise the above-threshold FXAA branch. -/
def fxaaEdgeBuf : ℕ → ℕ := fun i => if i = 5 then 0xffffff else 0

/-! ## Helper lemmas -/

/-- Resolving a cell with an empty translucent list returns the background
colour with the alpha dropped. -/
theorem resolve_fst_of_no_fragments (cell : RenderBufferPixel) (bg : Vec3)
    (h : cell.fragments = []) :
    (cell.resolve bg).1 = cell.background.colour.xyz := by
  simp [RenderBufferPixel.resolve, h, sortByDepth]

/-- `draw_pixel` leaves the cell alone when the fragment depth is not nearer
than the background depth. -/
theorem draw_pixel_skip (cell : RenderBufferPixel) (d : ℚ) (r : Option Vec4)
    (h : cell.background.depth ≤ d) :
    Rasterizer.draw_pixel cell d r = cell := by
  simp [Rasterizer.draw_pixel, h]

/-- `draw_pixel` with a nearer, fully opaque shader result replaces the
background slot and leaves the translucent list alone. -/
theorem draw_pixel_replaces_bg (cell : RenderBufferPixel) (d : ℚ) (c : Vec4)
    (hd : d < cell.background.depth) (hc : 0.9999 ≤ c.w) :
    Rasterizer.draw_pixel cell d (some c) =
      { cell with background := ⟨c, d⟩ } := by
  have hskip : ¬ cell.background.depth ≤ d := not_le.mpr hd
  have halpha : ¬ c.w ≤ 0.0001 :=
    not_le.mpr (lt_of_lt_of_le (by norm_num) hc)
  simp [Rasterizer.draw_pixel, hskip, halpha, RenderBufferPixel.add, hc]

/-- `draw_pixel` with a nearer, properly translucent shader result appends the
fragment to the translucent list and leaves the background slot alone. -/
theorem draw_pixel_translucent (cell : RenderBufferPixel) (d : ℚ) (c : Vec4)
    (hd : d < cell.background.depth) (hlow : 0.0001 < c.w) (hhigh : c.w < 0.9999) :
    Rasterizer.draw_pixel cell d (some c) =
      { cell with fragments := cell.fragments ++ [⟨c, d⟩] } := by
  have hskip : ¬ cell.background.depth ≤ d := not_le.mpr hd
  have halpha : ¬ c.w ≤ 0.0001 := not_le.mpr hlow
  have hop : ¬ (0.9999 : ℚ) ≤ c.w := not_le.mpr hhigh
  simp [Rasterizer.draw_pixel, hskip, halpha, RenderBufferPixel.add, hop]

/-! ## Claim theorems -/

/-- Claim C1 (code bug): the coarse reject is claimed to discard exactly the
triangles whose three clip-space vertices lie outside the same single
half-space. The code instead discards as soon as one vertex is outside
[-w, w] on the x, y and z axes simultaneously: the triangle with vertices
(2,2,2,1), (0,0,0,1), (0,0,0,1) is discarded although its vertices do not
all leave one half-space (and two of them are inside the frustum), while
the triangle with all three vertices at (2,0,0,1) — all outside the x > w
half-space — is not discarded. -/
theorem coarse_reject_not_half_space_cull :
    Rasterizer.triangle_outside_screen ⟨2, 2, 2, 1⟩ ⟨0, 0, 0, 1⟩ ⟨0, 0, 0, 1⟩ = true ∧
    allOutsideSameHalfSpace ⟨2, 2, 2, 1⟩ ⟨0, 0, 0, 1⟩ ⟨0, 0, 0, 1⟩ = false ∧
    Rasterizer.cull_triangle ⟨2, 2, 2, 1⟩ ⟨0, 0, 0, 1⟩ ⟨0, 0, 0, 1⟩ ⟨false, ⟨0, 0, 0⟩⟩ = true ∧
    Rasterizer.triangle_outside_screen ⟨2, 0, 0, 1⟩ ⟨2, 0, 0, 1⟩ ⟨2, 0, 0, 1⟩ = false ∧
    allOutsideSameHalfSpace ⟨2, 0, 0, 1⟩ ⟨2, 0, 0, 1⟩ ⟨2, 0, 0, 1⟩ = true ∧
    Rasterizer.cull_triangle ⟨2, 0, 0, 1⟩ ⟨2, 0, 0, 1⟩ ⟨2, 0, 0, 1⟩ ⟨false, ⟨0, 0, 0⟩⟩ = false := by
  refine ⟨?_, ?_, ?_, ?_, ?_, ?_⟩ <;> decide

/-- Claim C2 (code bug): the spec requires a guard for near-zero screen-space
area, treating the triangle as covering nothing instead of dividing by
zero. The code has no such guard: for the degenerate triangle whose three
screen points coincide at (2, 2), the barycentric denominator is exactly 0,
the division is performed regardless, and the resulting weights pass the
negative-weight coverage test (in `f32` the weights are NaN and `NaN < 0`
is false; in the exact model the junk weights are (0, 0, 1)), so the pixel
at (2, 2) is treated as covered and is shaded. -/
theorem degenerate_area_unguarded :
    barycentricArea ⟨2, 2⟩ ⟨2, 2⟩ ⟨2, 2⟩ = 0 ∧
    pixelCovered
      (Rasterizer.calculate_barycentric_coordinates (⟨2, 2⟩, ⟨2, 2⟩, ⟨2, 2⟩) ⟨2, 2⟩) = true := by
  constructor
  · norm_num [barycentricArea]
  · norm_num [pixelCovered, Rasterizer.calculate_barycentric_coordinates, barycentricArea]

/-- Claim C4 (confirmed): `RenderBufferPixel::add` routes a fragment to the
background slot exactly when its alpha is at least 0.9999, and otherwise
appends it to the translucent list leaving the background unchanged. -/
theorem add_routes_by_alpha (cell : RenderBufferPixel) (f : Fragment) :
    (0.9999 ≤ f.colour.w →
      (cell.add f).background = f ∧ (cell.add f).fragments = cell.fragments) ∧
    (f.colour.w < 0.9999 →
      (cell.add f).background = cell.background ∧
        (cell.add f).fragments = cell.fragments ++ [f]) := by
  constructor
  · intro h
    simp [RenderBufferPixel.add, h]
  · intro h
    simp [RenderBufferPixel.add, not_le.mpr h]

/-- Witness for C4 at concrete inputs: an opaque fragment replaces the
background slot, a translucent one is appended to the list. -/
theorem add_routes_by_alpha_witness :
    ((RenderBufferPixel.new ⟨0, 0, 0⟩).add ⟨⟨1, 1, 1, 1⟩, 5⟩).background = ⟨⟨1, 1, 1, 1⟩, 5⟩ ∧
    ((RenderBufferPixel.new ⟨0, 0, 0⟩).add ⟨⟨1, 0, 0, 1/2⟩, 5⟩).fragments =
      (RenderBufferPixel.new ⟨0, 0, 0⟩).fragments ++ [⟨⟨1, 0, 0, 1/2⟩, 5⟩] :=
  ⟨((add_routes_by_alpha (RenderBufferPixel.new ⟨0, 0, 0⟩) ⟨⟨1, 1, 1, 1⟩, 5⟩).1
      (by norm_num)).1,
   ((add_routes_by_alpha (RenderBufferPixel.new ⟨0, 0, 0⟩) ⟨⟨1, 0, 0, 1/2⟩, 5⟩).2
      (by norm_num)).2⟩

/-- Claim C7 (confirmed): `resolve` resets the cell to an empty translucent
list and a background slot holding the configured background colour at the
`f32::MAX` sentinel, so a second resolve with no intervening add returns
exactly the configured background colour; a freshly constructed cell also
resolves to the background colour, so two consecutive resolves of a fresh
cell both return it. -/
theorem resolve_resets_and_returns_background (cell : RenderBufferPixel) (bg : Vec3) :
    (cell.resolve bg).2 = RenderBufferPixel.new bg ∧
    ((cell.resolve bg).2.resolve bg).1 = bg ∧
    ((RenderBufferPixel.new bg).resolve bg).1 = bg :=
  ⟨rfl, rfl, rfl⟩

/-- Claim C5 (confirmed): two fully opaque fragments with depths d1 < d2,
inserted through the depth-tested `draw_pixel` path into a fresh cell in
either order, resolve to the colour of the nearer (d1) fragment; the result
does not depend on the insertion order. -/
theorem opaque_depth_order_independent (cell : RenderBufferPixel) (c1 c2 : Vec4)
    (d1 d2 : ℚ) (rbg : Vec3) (hfr : cell.fragments = [])
    (h1 : 0.9999 ≤ c1.w) (h2 : 0.9999 ≤ c2.w) (h12 : d1 < d2)
    (hfar : d2 < cell.background.depth) :
    ((Rasterizer.draw_pixel (Rasterizer.draw_pixel cell d1 (some c1))
        d2 (some c2)).resolve rbg).1 = c1.xyz ∧
    ((Rasterizer.draw_pixel (Rasterizer.draw_pixel cell d2 (some c2))
        d1 (some c1)).resolve rbg).1 = c1.xyz := by
  constructor
  · rw [draw_pixel_replaces_bg cell d1 c1 (lt_trans h12 hfar) h1]
    rw [draw_pixel_skip _ d2 (some c2) (le_of_lt h12)]
    exact resolve_fst_of_no_fragments _ rbg hfr
  · rw [draw_pixel_replaces_bg cell d2 c2 hfar h2]
    rw [draw_pixel_replaces_bg _ d1 c1 h12 h1]
    exact resolve_fst_of_no_fragments _ rbg hfr


/-- Witness for C5 at concrete inputs: red at depth 1 and green at depth 2,
both opaque, resolve to red in either insertion order. -/
theorem opaque_depth_order_independent_witness :
    ((Rasterizer.draw_pixel
        (Rasterizer.draw_pixel (RenderBufferPixel.new ⟨0, 0, 0⟩) 1 (some ⟨1, 0, 0, 1⟩))
        2 (some ⟨0, 1, 0, 1⟩)).resolve ⟨0, 0, 0⟩).1 = Vec4.xyz ⟨1, 0, 0, 1⟩ ∧
    ((Rasterizer.draw_pixel
        (Rasterizer.draw_pixel (RenderBufferPixel.new ⟨0, 0, 0⟩) 2 (some ⟨0, 1, 0, 1⟩))
        1 (some ⟨1, 0, 0, 1⟩)).resolve ⟨0, 0, 0⟩).1 = Vec4.xyz ⟨1, 0, 0, 1⟩ :=
  opaque_depth_order_independent (RenderBufferPixel.new ⟨0, 0, 0⟩)
    ⟨1, 0, 0, 1⟩ ⟨0, 1, 0, 1⟩ 1 2 ⟨0, 0, 0⟩ rfl
    (by norm_num) (by norm_num) (by norm_num)
    (by show (2 : ℚ) < f32MAX; norm_num [f32MAX])

/-- Claim C6 (confirmed): a cell whose background is white at the sentinel
depth, after adding one translucent red fragment with alpha one half at
depth 1, resolves to (1, 1/2, 1/2) by the over blend. -/
theorem translucent_over_white_resolves :
    (((RenderBufferPixel.new ⟨1, 1, 1⟩).add ⟨⟨1, 0, 0, 0.5⟩, 1⟩).resolve ⟨1, 1, 1⟩).1 =
      ⟨1, 0.5, 0.5⟩ := by
  have hadd : (RenderBufferPixel.new ⟨1, 1, 1⟩).add ⟨⟨1, 0, 0, 0.5⟩, 1⟩ =
      { fragments := [⟨⟨1, 0, 0, 0.5⟩, 1⟩]
        background := { colour := ⟨1, 1, 1, 1⟩, depth := f32MAX } } := by
    simp [RenderBufferPixel.add, RenderBufferPixel.new, Vec3.push]
    norm_num
  rw [hadd]
  show (if f32MAX < 1 then Vec4.xyz ⟨1, 1, 1, 1⟩
    else overBlend (Vec4.xyz ⟨1, 1, 1, 1⟩) ⟨⟨1, 0, 0, 0.5⟩, 1⟩) = ⟨1, 0.5, 0.5⟩
  rw [if_neg (by norm_num [f32MAX])]
  show Vec3.mk (1 * 0.5 + 1 * (1 - 0.5)) (0 * 0.5 + 1 * (1 - 0.5)) (0 * 0.5 + 1 * (1 - 0.5))
    = ⟨1, 0.5, 0.5⟩
  norm_num

/-- Claim C3 (corrected, counterexample): the spec says the stored depth is the
dot product of clip-space z with the non-perspective screen-space weights.
For the triangle with clip-space vertices (-1,1,0,1), (2,2,2,2),
(-4,-4,4,4) on a 4x4 screen, the pixel (1,1) is covered with screen-space
weights (1/2, 1/4, 1/4), the code computes depth 8/11 (the dot product with
the perspective-corrected weights), while the dot product with the
screen-space weights is 3/2. -/
theorem frag_depth_not_screen_weights_cx :
    pixelCovered (screenWeightsAt 4 4 ⟨-1, 1, 0, 1⟩ ⟨2, 2, 2, 2⟩ ⟨-4, -4, 4, 4⟩ ⟨1, 1⟩) = true ∧
    drawTriangleDepthAt 4 4 ⟨-1, 1, 0, 1⟩ ⟨2, 2, 2, 2⟩ ⟨-4, -4, 4, 4⟩ ⟨1, 1⟩ = 8 / 11 ∧
    Rasterizer.get_frag_depth ⟨-1, 1, 0, 1⟩ ⟨2, 2, 2, 2⟩ ⟨-4, -4, 4, 4⟩
      (screenWeightsAt 4 4 ⟨-1, 1, 0, 1⟩ ⟨2, 2, 2, 2⟩ ⟨-4, -4, 4, 4⟩ ⟨1, 1⟩) = 3 / 2 ∧
    (8 : ℚ) / 11 ≠ 3 / 2 := by
  refine ⟨?_, ?_, ?_, by norm_num⟩ <;>
    norm_num [pixelCovered, screenWeightsAt, drawTriangleDepthAt,
      Rasterizer.calculate_barycentric_coordinates, barycentricArea,
      perspectiveDivideXY, viewportTransform, Rasterizer.get_frag_depth]

/-- Claim C3 (amended): for every triangle and pixel, the fragment depth
computed by `draw_triangle` is the dot product of the clip-space z
components with the perspective-corrected (w-divided, renormalized)
barycentric weights — the same weights used for varying interpolation —
not with the screen-space weights. -/
theorem frag_depth_uses_perspective_weights (width height : ℚ) (v0 v1 v2 : Vec4) (p : Vec2) :
    drawTriangleDepthAt width height v0 v1 v2 p =
      Rasterizer.get_frag_depth v0 v1 v2 (clipWeightsAt width height v0 v1 v2 p) :=
  rfl

/-- Claim C8 (corrected, counterexample): the invariant "every translucent
fragment has depth below the current background depth" does not survive a
later opaque fragment replacing the background slot. Inserting through the
depth-tested path a translucent fragment at depth 5 and then an opaque one
at depth 1 leaves a translucent fragment at depth 5 behind a background at
depth 1. -/
theorem translucent_invariant_broken_cx :
    ¬ translucentInvariant
        (Rasterizer.draw_pixel
          (Rasterizer.draw_pixel (RenderBufferPixel.new ⟨0, 0, 0⟩) 5 (some ⟨1, 0, 0, 0.5⟩))
          1 (some ⟨0, 1, 0, 1⟩)) := by
  have h1 : Rasterizer.draw_pixel (RenderBufferPixel.new ⟨0, 0, 0⟩) 5 (some ⟨1, 0, 0, 0.5⟩) =
      { fragments := [⟨⟨1, 0, 0, 0.5⟩, 5⟩]
        background := (RenderBufferPixel.new ⟨0, 0, 0⟩).background } := by
    rw [draw_pixel_translucent (RenderBufferPixel.new ⟨0, 0, 0⟩) 5 ⟨1, 0, 0, 0.5⟩
      (by norm_num [RenderBufferPixel.new, f32MAX]) (by norm_num) (by norm_num)]
    rfl
  have h2 : Rasterizer.draw_pixel
      { fragments := [⟨⟨1, 0, 0, 0.5⟩, 5⟩]
        background := (RenderBufferPixel.new ⟨0, 0, 0⟩).background }
      1 (some ⟨0, 1, 0, 1⟩) =
      { fragments := [⟨⟨1, 0, 0, 0.5⟩, 5⟩]
        background := ⟨⟨0, 1, 0, 1⟩, 1⟩ } := by
    rw [draw_pixel_replaces_bg _ 1 ⟨0, 1, 0, 1⟩
      (by norm_num [RenderBufferPixel.new, f32MAX]) (by norm_num)]
  rw [h1, h2]
  intro h
  have h5 := h ⟨⟨1, 0, 0, 0.5⟩, 5⟩ (by simp)
  norm_num at h5

/-- Claim C8 (amended): the invariant holds at the moment of insertion: any
`draw_pixel` call that changes the translucent list appends exactly one
fragment whose depth is strictly below the background depth, and leaves the
background slot unchanged, so every translucent fragment was nearer than
the background when it was inserted. -/
theorem translucent_insert_below_background (cell : RenderBufferPixel) (d : ℚ)
    (r : Option Vec4)
    (hch : (Rasterizer.draw_pixel cell d r).fragments ≠ cell.fragments) :
    d < cell.background.depth ∧
    (Rasterizer.draw_pixel cell d r).background = cell.background ∧
    ∃ c, r = some c ∧
      (Rasterizer.draw_pixel cell d r).fragments = cell.fragments ++ [⟨c, d⟩] := by
  by_cases hskip : cell.background.depth ≤ d
  · rw [draw_pixel_skip cell d r hskip] at hch
    exact absurd rfl hch
  match r with
  | none =>
    rw [show Rasterizer.draw_pixel cell d none = cell from by
      simp [Rasterizer.draw_pixel]] at hch
    exact absurd rfl hch
  | some c =>
    by_cases halpha : c.w ≤ 0.0001
    · rw [show Rasterizer.draw_pixel cell d (some c) = cell from by
        simp [Rasterizer.draw_pixel, hskip, halpha]] at hch
      exact absurd rfl hch
    by_cases hop : (0.9999 : ℚ) ≤ c.w
    · rw [draw_pixel_replaces_bg cell d c (not_le.mp hskip) hop] at hch
      exact absurd rfl hch
    · rw [draw_pixel_translucent cell d c (not_le.mp hskip)
        (not_le.mp halpha) (not_le.mp hop)] at hch ⊢
      exact ⟨not_le.mp hskip, rfl, c, rfl, rfl⟩

/-- Witness for the amended C8 at a concrete input: adding a translucent
fragment at depth 5 to a fresh cell changes the list, so the theorem gives
that 5 is below the background depth sentinel and that the insertion
appended the fragment without touching the background. -/
theorem translucent_insert_below_background_witness :
    (5 : ℚ) < (RenderBufferPixel.new ⟨0, 0, 0⟩).background.depth ∧
    (Rasterizer.draw_pixel (RenderBufferPixel.new ⟨0, 0, 0⟩) 5
        (some ⟨1, 0, 0, 0.5⟩)).background = (RenderBufferPixel.new ⟨0, 0, 0⟩).background ∧
    ∃ c, (some ⟨1, 0, 0, 0.5⟩ : Option Vec4) = some c ∧
      (Rasterizer.draw_pixel (RenderBufferPixel.new ⟨0, 0, 0⟩) 5
          (some ⟨1, 0, 0, 0.5⟩)).fragments =
        (RenderBufferPixel.new ⟨0, 0, 0⟩).fragments ++ [⟨c, 5⟩] :=
  translucent_insert_below_background (RenderBufferPixel.new ⟨0, 0, 0⟩) 5
    (some ⟨1, 0, 0, 0.5⟩)
    (by rw [draw_pixel_translucent (RenderBufferPixel.new ⟨0, 0, 0⟩) 5 ⟨1, 0, 0, 0.5⟩
        (by norm_num [RenderBufferPixel.new, f32MAX]) (by norm_num) (by norm_num)]
        simp [RenderBufferPixel.new])

/-- Claim C9 (confirmed): for the FXAA pass, border pixels are copied
unchanged; an interior pixel whose 4-neighbour luminance delta does not
exceed the threshold is copied unchanged; one above the threshold becomes
the truncating per-channel average of the 3x3 input neighbourhood; and with
the `fxaa` option off, `process` copies every pixel through unchanged. -/
theorem fxaa_pixel_classification (buffer : ℕ → ℕ) (width height x y : ℕ) :
    ((y = 0 ∨ y = height - 1 ∨ x = 0 ∨ x = width - 1) →
      run_fxaa buffer width height x y = buffer (y * width + x)) ∧
    (y ≠ 0 → y ≠ height - 1 → x ≠ 0 → x ≠ width - 1 →
      (lumaDelta buffer width x y ≤ luma_diff_threshold →
        run_fxaa buffer width height x y = buffer (y * width + x)) ∧
      (luma_diff_threshold < lumaDelta buffer width x y →
        run_fxaa buffer width height x y = average3x3 buffer width x y)) ∧
    PostProcessor.process false buffer width height x y = buffer (y * width + x) := by
  refine ⟨fun hb => ?_, fun hy0 hy1 hx0 hx1 => ⟨fun hle => ?_, fun hlt => ?_⟩, rfl⟩
  · rw [run_fxaa, if_pos hb]
  · rw [run_fxaa, if_neg (by tauto), run_fxaa_for_pixel, if_neg (not_lt.mpr hle)]
  · rw [run_fxaa, if_neg (by tauto), run_fxaa_for_pixel, if_pos hlt]

/-- Witness for C9 at concrete inputs on a 3x3 buffer: a border pixel is
copied, the centre of a constant buffer is copied (delta 0 is below the
threshold), the centre of a black buffer with a white right neighbour
(delta 1 exceeds the threshold) becomes the 3x3 average, and `process`
with the option off copies the pixel. -/
theorem fxaa_pixel_classification_witness :
    run_fxaa fxaaEdgeBuf 3 3 0 1 = fxaaEdgeBuf (1 * 3 + 0) ∧
    run_fxaa fxaaFlatBuf 3 3 1 1 = fxaaFlatBuf (1 * 3 + 1) ∧
    run_fxaa fxaaEdgeBuf 3 3 1 1 = average3x3 fxaaEdgeBuf 3 1 1 ∧
    PostProcessor.process false fxaaEdgeBuf 3 3 1 1 = fxaaEdgeBuf (1 * 3 + 1) := by
  have hlt : luma_diff_threshold < lumaDelta fxaaEdgeBuf 3 1 1 := by
    have e1 : 16777215 >>> 16 &&& 255 = 255 := by decide
    have e2 : 16777215 >>> 8 &&& 255 = 255 := by decide
    have e3 : 16777215 &&& 255 = 255 := by decide
    norm_num [lumaDelta, fxaaEdgeBuf, luminance, luma_diff_threshold, e1, e2, e3]
  have hle : lumaDelta fxaaFlatBuf 3 1 1 ≤ luma_diff_threshold := by
    simp [lumaDelta, fxaaFlatBuf, luma_diff_threshold]
    norm_num
  exact ⟨(fxaa_pixel_classification fxaaEdgeBuf 3 3 0 1).1 (by norm_num),
    ((fxaa_pixel_classification fxaaFlatBuf 3 3 1 1).2.1
      (by norm_num) (by norm_num) (by norm_num) (by norm_num)).1 hle,
    ((fxaa_pixel_classification fxaaEdgeBuf 3 3 1 1).2.1
      (by norm_num) (by norm_num) (by norm_num) (by norm_num)).2 hlt,
    (fxaa_pixel_classification fxaaEdgeBuf 3 3 1 1).2.2⟩

/-- Claim C10 (corrected, counterexample): the spec says `Texture2D::sample`
never underflows the row index. At height 2 and v = 3 the row expression
`height - (v * (height - 1)) as usize - 1` evaluates over ℤ to 2 - 3 - 1 =
-2, so the `usize` subtraction underflows (wrapping in release builds); the
subsequent `min(height - 1)` clamp still brings the wrapped index back to
the last row. -/
theorem sample_row_index_underflow_cx :
    rowIndexInt 2 3 < 0 ∧ sampleRowIndex 2 3 = 1 := by
  have hcast : f32_as_usize ((3 : ℤ) : ℚ) = 3 := by
    unfold f32_as_usize
    rw [if_neg (by norm_num), Int.floor_intCast]
    exact Nat.min_eq_left (by norm_num [usizeSize])
  have hri : rowIndexInt 2 3 = -2 := by
    unfold rowIndexInt
    rw [show (3 : ℚ) * ((2 - 1 : ℕ) : ℚ) = ((3 : ℤ) : ℚ) by norm_num, hcast]
    norm_num
  have hmod : (-2 : ℤ) % (usizeSize : ℤ) = 18446744073709551614 := by
    norm_num [usizeSize]
  constructor
  · rw [hri]
    norm_num
  · rw [sampleRowIndex, hri, hmod]
    exact Nat.min_eq_right (by norm_num)

/-- Claim C10 (amended): for every texture of positive dimensions (height at
most the `usize` range) and all rational coordinates, sampling clamps the
column index into [0, width - 1] and the row index into [0, height - 1]
(even where the row computation wraps), the flat texel index stays below
width * height, v = 0 maps to the bottom row, and therefore sampling a
texture whose pixel array has the advertised length never indexes out of
bounds. -/
theorem sample_indices_clamped_in_bounds (width height : ℕ) (u v : ℚ)
    (hw : 0 < width) (hh : 0 < height) (hh64 : height ≤ usizeSize) :
    sampleColIndex width u ≤ width - 1 ∧
    sampleRowIndex height v ≤ height - 1 ∧
    sampleIndex width height u v < width * height ∧
    sampleRowIndex height 0 = height - 1 ∧
    ∀ t : Texture2D, t.width = width → t.height = height →
      t.pixels.length = width * height →
      sampleIndex t.width t.height u v < t.pixels.length := by
  have hcol : sampleColIndex width u ≤ width - 1 := Nat.min_le_right _ _
  have hrowAll : ∀ q : ℚ, sampleRowIndex height q ≤ height - 1 := fun q =>
    Nat.min_le_right _ _
  have hidx : sampleIndex width height u v < width * height := by
    obtain ⟨w1, rfl⟩ : ∃ w1, width = w1 + 1 :=
      ⟨width - 1, (Nat.succ_pred_eq_of_pos hw).symm⟩
    obtain ⟨h1, rfl⟩ : ∃ h1, height = h1 + 1 :=
      ⟨height - 1, (Nat.succ_pred_eq_of_pos hh).symm⟩
    have hr := hrowAll v
    simp only [Nat.add_sub_cancel] at hr hcol
    calc sampleIndex (w1 + 1) (h1 + 1) u v
        = sampleRowIndex (h1 + 1) v * (w1 + 1) + sampleColIndex (w1 + 1) u := rfl
      _ ≤ h1 * (w1 + 1) + w1 := Nat.add_le_add (Nat.mul_le_mul_right _ hr) hcol
      _ < (h1 + 1) * (w1 + 1) := by
          rw [Nat.succ_mul]
          exact Nat.add_lt_add_left (Nat.lt_succ_self w1) _
      _ = (w1 + 1) * (h1 + 1) := Nat.mul_comm _ _
  have hbottom : sampleRowIndex height 0 = height - 1 := by
    have hzero : f32_as_usize (0 * ((height - 1 : ℕ) : ℚ)) = 0 := by
      norm_num [f32_as_usize]
    have hri : rowIndexInt height 0 = (height : ℤ) - 1 := by
      rw [rowIndexInt, hzero]
      norm_num
    have hcastle : (height : ℤ) ≤ (usizeSize : ℤ) := by exact_mod_cast hh64
    have hmod : rowIndexInt height 0 % (usizeSize : ℤ) = (height : ℤ) - 1 := by
      rw [hri]
      refine Int.emod_eq_of_lt ?_ ?_ <;> omega
    rw [sampleRowIndex, hmod]
    have htn : Int.toNat ((height : ℤ) - 1) = height - 1 := by omega
    rw [htn, Nat.min_self]
  exact ⟨hcol, hrowAll v, hidx, hbottom, fun t htw hth hlen => by
    rw [htw, hth, hlen]; exact hidx⟩

/-- Witness for the amended C10 at concrete inputs: width 2, height 2, u = v =
3, where the row computation wraps and both indices clamp to 1. -/
theorem sample_indices_clamped_in_bounds_witness :
    sampleColIndex 2 3 ≤ 2 - 1 ∧
    sampleRowIndex 2 3 ≤ 2 - 1 ∧
    sampleIndex 2 2 3 3 < 2 * 2 ∧
    sampleRowIndex 2 0 = 2 - 1 := by
  have h := sample_indices_clamped_in_bounds 2 2 3 3
    (by decide) (by decide) (by decide)
  exact ⟨h.1, h.2.1, h.2.2.1, h.2.2.2.1⟩

end SimpleRaster
